import Mathlib

/-!
Verification development for the document-to-Q&A processor
(`src/processor.rs`, `OllamaProcessor`).

Strings are modelled as `List Char` (`Str`).  Rust `f64` arithmetic in the
yield-target estimator is modelled exactly over `Nat`: for the word counts
involved, `(x as f64 / 10.0).ceil()`, `(b as f64 * 0.25).ceil()` and
`(b as f64 * 0.8).ceil()` agree with the exact rational ceilings
`ceil(x/10)`, `ceil(b/4)` and `ceil(4*b/5)`, which over `Nat` are
`(x+9)/10`, `(b+3)/4` and `(4*b+4)/5`.

Rust `char::is_whitespace` and the regex class `\s` are modelled by the
ASCII whitespace set (space, tab, newline, carriage return, vertical tab,
form feed); all inputs exercised by the claims are ASCII.

The Ollama backend is an external collaborator and is modelled as an
oracle function from (section text, requested question count, attempt
index) to a transport-level response.  `serde_json` is external as well;
its `from_str` behaviour on the three schemas the program uses
(`ChatResponse`, `QuestionResponse`, `Vec<ProcessedItem>` /
per-line `ProcessedItem`) is modelled by a strict JSON parser that
requires the whole input to be consumed (modulo trailing whitespace),
ignores unknown object fields, and takes the first occurrence of a
duplicated field.
-/

set_option maxRecDepth 10000

abbrev Str := List Char

/-- ASCII whitespace, modelling Rust `char::is_whitespace` / regex `\s`. -/
def isWs (c : Char) : Bool :=
  c = ' ' || c = '\t' || c = '\n' || c = '\r' || c = '\x0b' || c = '\x0c'

/-- Rust `str::trim_start`. -/
def trimStart (s : Str) : Str := s.dropWhile isWs

/-- Rust `str::trim_end`. -/
def trimEnd (s : Str) : Str := (s.reverse.dropWhile isWs).reverse

/-- Rust `str::trim`. -/
def trim (s : Str) : Str := trimEnd (trimStart s)

/-- Whether `s.trim().is_empty()` holds, i.e. every char is whitespace. -/
def wsOnly (s : Str) : Bool := s.all isWs

/-- Rust `text.split_whitespace().count()`: the number of maximal
nonempty runs of non-whitespace characters (`OllamaProcessor::count_words`). -/
def count_words (s : Str) : Nat :=
  (s.foldl
    (fun (st : Bool × Nat) c =>
      if isWs c then (false, st.2)
      else (true, if st.1 then st.2 else st.2 + 1))
    (false, 0)).2

/-- Helper for `lines`: scan with a reversed accumulator for the current
line.  At a `'\n'` the accumulated line is emitted with a single trailing
`'\r'` stripped (Rust `str::lines` treats `\r\n` as a line ending); a final
line without a newline keeps any trailing `'\r'`. -/
def linesGo (cur : Str) : Str → List Str
  | [] => [cur.reverse]
  | c :: rest =>
    if c = '\n' then
      (match cur with
        | '\r' :: t => t.reverse
        | _ => cur.reverse) :: (if rest = [] then [] else linesGo [] rest)
    else linesGo (c :: cur) rest

/-- Rust `str::lines`. -/
def lines : Str → List Str
  | [] => []
  | s => linesGo [] s

/-- Joins lines the way every splitter in the source rebuilds sections:
`push_str(line); push('\n')` for each line. -/
def unlines (ls : List Str) : Str :=
  ls.foldr (fun l acc => l ++ '\n' :: acc) []

/-- The text a splitter reconstructs from `s` when no line is dropped:
every line of `s` terminated by exactly one `'\n'`. -/
def normText (s : Str) : Str := unlines (lines s)

/-- Exact ceiling division on `Nat` (for `b > 0`, `ceilNat a b = ⌈a / b⌉`). -/
def ceilNat (a b : Nat) : Nat := (a + b - 1) / b

/-- `OllamaProcessor::calculate_question_targets` (processor.rs:103-124),
with the `f64` ceilings modelled exactly (see the header comment).
Returns `(base_goal, generation_target, min_acceptable)`. -/
def calculate_question_targets (word_count : Nat) : Nat × Nat × Nat :=
  let base_goal := (word_count + 9) / 10
  let base_goal := max base_goal 2
  let extra_questions := (base_goal + 3) / 4
  let extra_questions := max extra_questions 2
  let generation_target := base_goal + extra_questions
  let min_acceptable := max ((4 * base_goal + 4) / 5) 2
  (base_goal, generation_target, min_acceptable)

/-- The `generation_target` component computed by `process_section`
(processor.rs:286-287) from a section's own word count. -/
def section_generation_target (s : Str) : Nat :=
  (calculate_question_targets (count_words s)).2.1

/-- The `min_acceptable` component for a document's word count. -/
def minAcceptableOf (doc : Str) : Nat :=
  (calculate_question_targets (count_words doc)).2.2

/-- The heading test of `split_into_sections` (processor.rs:129): the regex
`^#\s|^##\s` applied to a single line — a `'#'` followed by whitespace, or
`"##"` followed by whitespace.  Three or more `'#'`, or a `'#'` with no
following whitespace, do NOT match. -/
def isSectionHeader : Str → Bool
  | '#' :: c :: rest =>
    if isWs c then true
    else if c = '#' then
      match rest with
      | d :: _ => isWs d
      | [] => false
    else false
  | _ => false

/-- One loop iteration of `split_into_sections` (processor.rs:136-146).
State: (sections so far, current section).  At a header line the current
section is pushed when not whitespace-only and the accumulator is reset
unconditionally; every line is then appended with a trailing `'\n'`. -/
def sisStep (st : List Str × Str) (line : Str) : List Str × Str :=
  if isSectionHeader line then
    ((if wsOnly st.2 then st.1 else st.1 ++ [st.2]), line ++ ['\n'])
  else (st.1, st.2 ++ line ++ ['\n'])

/-- `OllamaProcessor::split_into_sections` (processor.rs:126-159).  The
check on the first line at lines 131-134 only re-assigns an already-empty
string and has no effect, so it is not modelled. -/
def split_into_sections (content : Str) : List Str :=
  let st := (lines content).foldl sisStep ([], [])
  let secs := if wsOnly st.2 then st.1 else st.1 ++ [st.2]
  if secs = [] then [content] else secs

/-- One loop iteration of `split_by_headings` (processor.rs:165-174).
Unlike `sisStep`, the accumulator is reset only when it is pushed, so a
whitespace-only prefix is merged into the following heading's section. -/
def hbStep (st : List Str × Str) (line : Str) : List Str × Str :=
  if line.head? = some '#' then
    if wsOnly st.2 then (st.1, st.2 ++ line ++ ['\n'])
    else (st.1 ++ [st.2], line ++ ['\n'])
  else (st.1, st.2 ++ line ++ ['\n'])

/-- `OllamaProcessor::split_by_headings` (processor.rs:161-185):
a new section begins at every line whose first character is `'#'`. -/
def split_by_headings (content : Str) : List Str :=
  let st := (lines content).foldl hbStep ([], [])
  let secs := if wsOnly st.2 then st.1 else st.1 ++ [st.2]
  if secs = [] then [content] else secs

/-- One loop iteration of `split_by_paragraphs` (processor.rs:192-205).
State: (sections, current section, consecutive-empty-line counter). -/
def pgStep (st : List Str × Str × Nat) (line : Str) : List Str × Str × Nat :=
  if wsOnly line then
    if 2 ≤ st.2.2 + 1 && !(wsOnly st.2.1) then
      (st.1 ++ [st.2.1], line ++ ['\n'], 0)
    else (st.1, st.2.1 ++ line ++ ['\n'], st.2.2 + 1)
  else (st.1, st.2.1 ++ line ++ ['\n'], 0)

/-- `OllamaProcessor::split_by_paragraphs` (processor.rs:187-216):
a new section begins after two or more consecutive whitespace-only lines. -/
def split_by_paragraphs (content : Str) : List Str :=
  let st := (lines content).foldl pgStep ([], [], 0)
  let secs := if wsOnly st.2.1 then st.1 else st.1 ++ [st.2.1]
  if secs = [] then [content] else secs

/-- The opening code-fence token stripped by `sanitize_json`. -/
def fenceOpen : Str := "```json".toList

/-- The closing code-fence token stripped by `sanitize_json`. -/
def fenceClose : Str := "```".toList

/-- The markdown code-fence stripping step of `sanitize_json`
(processor.rs:30-38): both the `"```json"` prefix and the `"```"` suffix
must be present, otherwise the input is returned unchanged. -/
def stripCodeFence (s : Str) : Str :=
  if fenceOpen.isPrefixOf s then
    let c := s.drop fenceOpen.length
    if fenceClose.isSuffixOf c then trim (c.take (c.length - fenceClose.length))
    else s
  else s

/-- Rust `str::rfind(pat)`: the start index of the last occurrence of
`pat` in `s` (byte indices and char indices agree on the prefixes taken,
since occurrences start at char boundaries). -/
def rfindSub (s pat : Str) : Option Nat :=
  ((List.range (s.length + 1)).filter (fun i => pat.isPrefixOf (s.drop i))).getLast?

/-- The pattern `","answer":` of processor.rs:42. -/
def ansPat : Str := "\",\"answer\":".toList

/-- The pattern `{"question":` of processor.rs:44. -/
def qPat : Str := "\x7b\"question\":".toList

/-- Whether `json.trim_end().ends_with('}')` (processor.rs:41). -/
def endsWithBrace (s : Str) : Bool :=
  (s.reverse.dropWhile isWs).head? = some '\x7d'

/-- The truncation-repair step of `sanitize_json` (processor.rs:41-62). -/
def truncFix (s : Str) : Str :=
  if endsWithBrace s then s
  else
    match rfindSub s ansPat with
    | some lc =>
      match rfindSub (s.take lc) qPat with
      | some lq => s.take lq ++ "]\x7d\x7d\x7d".toList
      | none => s.take lc ++ "\x7d]\x7d\x7d\x7d".toList
    | none =>
      match rfindSub s "\x7d\x7d".toList with
      | some i => s.take (i + 1) ++ ['\x7d']
      | none => s

/-- Fuel-indexed scan for the regex replacement `,(\s*[\]}])` → `$1`
(processor.rs:65-66): a comma followed (modulo whitespace) by a closing
bracket or brace is dropped; scanning resumes after the bracket.  Fuel at
least the input length is sufficient since every step consumes a char. -/
def commaScanF : Nat → Str → Str
  | 0, s => s
  | _ + 1, [] => []
  | f + 1, c :: rest =>
    if c = ',' then
      match rest.dropWhile isWs with
      | b :: r3 =>
        if b = ']' || b = '\x7d' then rest.takeWhile isWs ++ b :: commaScanF f r3
        else c :: commaScanF f rest
      | [] => c :: commaScanF f rest
    else c :: commaScanF f rest

/-- The trailing-comma removal step of `sanitize_json`. -/
def commaScan (s : Str) : Str := commaScanF s.length s

/-- Fuel-indexed scan for the regex replacement `\s*\n\s*` → `" "`
(processor.rs:69-70): every maximal whitespace run containing a newline
collapses to a single space. -/
def newlineScanF : Nat → Str → Str
  | 0, s => s
  | _ + 1, [] => []
  | f + 1, c :: rest =>
    if isWs c && ((c :: rest).takeWhile isWs).contains '\n' then
      ' ' :: newlineScanF f ((c :: rest).dropWhile isWs)
    else c :: newlineScanF f rest

/-- The newline-collapsing step of `sanitize_json`. -/
def newlineScan (s : Str) : Str := newlineScanF s.length s

/-- The backslash-rewriting loop of `sanitize_json` (processor.rs:73-94):
a backslash before a double quote is kept (and the quote consumed);
any other backslash becomes a forward slash with the peeked char kept. -/
def fixBackslashes : Str → Str
  | [] => []
  | c :: rest =>
    if c = '\\' then
      match rest with
      | [] => ['/']
      | d :: r2 =>
        if d = '"' then '\\' :: '"' :: fixBackslashes r2
        else '/' :: fixBackslashes (d :: r2)
    else c :: fixBackslashes rest

/-- `OllamaProcessor::sanitize_json` (processor.rs:28-97): code-fence
stripping, then truncation repair, then trailing-comma removal, then
newline collapsing, then backslash rewriting. -/
def sanitize_json (s : Str) : Str :=
  fixBackslashes (newlineScan (commaScan (truncFix (stripCodeFence s))))

/-- JSON values, for the `serde_json` model.  Numbers keep their raw
literal text: no claim inspects numeric values. -/
inductive JVal where
  | jnull : JVal
  | jbool : Bool → JVal
  | jnum : Str → JVal
  | jstr : Str → JVal
  | jarr : List JVal → JVal
  | jobj : List (Str × JVal) → JVal

/-- JSON structural whitespace (RFC 8259: space, tab, newline, return). -/
def isJWs (c : Char) : Bool :=
  c = ' ' || c = '\t' || c = '\n' || c = '\r'

/-- Skips JSON structural whitespace. -/
def skipJWs (s : Str) : Str := s.dropWhile isJWs

/-- Hexadecimal digit value (code points written in decimal: digits are
48-57, lowercase letters 97-102, uppercase 65-70). -/
def hexVal (c : Char) : Option Nat :=
  let n := c.toNat
  if n ≥ 48 && n ≤ 57 then some (n - 48)
  else if n ≥ 97 && n ≤ 102 then some (n - 87)
  else if n ≥ 65 && n ≤ 70 then some (n - 55)
  else none

/-- Reads four hex digits from the front of the input. -/
def hex4 : Str → Option (Nat × Str)
  | a :: b :: c :: d :: rest =>
    match hexVal a, hexVal b, hexVal c, hexVal d with
    | some va, some vb, some vc, some vd =>
      some (va * 4096 + vb * 256 + vc * 16 + vd, rest)
    | _, _, _, _ => none
  | _ => none

/-- Scans a JSON string body (after the opening quote), returning the
decoded content and the remainder after the closing quote.  Handles the
standard escapes, `\uXXXX` with surrogate pairs, and rejects raw control
characters, as `serde_json` does. -/
def strBodyF : Nat → Str → Option (Str × Str)
  | 0, _ => none
  | _ + 1, [] => none
  | f + 1, c :: rest =>
    if c = '"' then some ([], rest)
    else if c = '\\' then
      match rest with
      | [] => none
      | e :: r2 =>
        if e = '"' || e = '\\' || e = '/' then
          (strBodyF f r2).map (fun p => (e :: p.1, p.2))
        else if e = 'b' then (strBodyF f r2).map (fun p => ('\x08' :: p.1, p.2))
        else if e = 'f' then (strBodyF f r2).map (fun p => ('\x0c' :: p.1, p.2))
        else if e = 'n' then (strBodyF f r2).map (fun p => ('\n' :: p.1, p.2))
        else if e = 'r' then (strBodyF f r2).map (fun p => ('\r' :: p.1, p.2))
        else if e = 't' then (strBodyF f r2).map (fun p => ('\t' :: p.1, p.2))
        else if e = 'u' then
          match hex4 r2 with
          | none => none
          | some (n, r3) =>
            if n ≥ 55296 && n ≤ 56319 then
              match r3 with
              | '\\' :: 'u' :: r4 =>
                match hex4 r4 with
                | some (m, r5) =>
                  if m ≥ 56320 && m ≤ 57343 then
                    let code := 65536 + 1024 * (n - 55296) + (m - 56320)
                    (strBodyF f r5).map (fun p => (Char.ofNat code :: p.1, p.2))
                  else none
                | none => none
              | _ => none
            else if n ≥ 56320 && n ≤ 57343 then none
            else (strBodyF f r3).map (fun p => (Char.ofNat n :: p.1, p.2))
        else none
    else if c.toNat < 32 then none
    else (strBodyF f rest).map (fun p => (c :: p.1, p.2))

/-- Parses a JSON string literal starting at the opening quote. -/
def strLit (s : Str) : Option (Str × Str) :=
  match s with
  | '"' :: rest => strBodyF (rest.length + 1) rest
  | _ => none

/-- Whether a char is a decimal digit. -/
def isDig (c : Char) : Bool := '0' ≤ c && c ≤ '9'

/-- Fractional part: a `'.'` must be followed by at least one digit. -/
def fracPart : Str -> Option (Str × Str)
  | '.' :: r =>
    let ds := r.takeWhile isDig
    if ds = [] then none else some ('.' :: ds, r.dropWhile isDig)
  | s => some ([], s)

/-- Exponent part: an `'e'`/`'E'` needs an optional sign and a digit. -/
def expPart : Str -> Option (Str × Str)
  | [] => some ([], [])
  | e :: r =>
    if e = 'e' || e = 'E' then
      let (sg, r1) := match r with
        | '+' :: rr => (['+'], rr)
        | '-' :: rr => (['-'], rr)
        | _ => (([] : Str), r)
      let ds := r1.takeWhile isDig
      if ds = [] then none else some (e :: sg ++ ds, r1.dropWhile isDig)
    else some ([], e :: r)

/-- Parses a JSON number literal, returning its raw text and the rest. -/
def numLit (s : Str) : Option (Str × Str) :=
  let (neg, s1) := match s with
    | '-' :: r => (['-'], r)
    | _ => (([] : Str), s)
  match s1 with
  | [] => none
  | c :: r =>
    if c = '0' then do
      let (fr, r2) <- fracPart r
      let (ex, r3) <- expPart r2
      pure (neg ++ '0' :: fr ++ ex, r3)
    else if isDig c then do
      let ds := (c :: r).takeWhile isDig
      let r1 := (c :: r).dropWhile isDig
      let (fr, r2) <- fracPart r1
      let (ex, r3) <- expPart r2
      pure (neg ++ ds ++ fr ++ ex, r3)
    else none

mutual

/-- Fuel-indexed JSON value parsing; the input starts at a value
(leading whitespace already skipped by the caller). -/
def jValF : Nat → Str → Option (JVal × Str)
  | 0, _ => none
  | f + 1, s =>
    match s with
    | [] => none
    | c :: r =>
      if c = '\x7b' then
        let r1 := skipJWs r
        match r1 with
        | '\x7d' :: r2 => some (.jobj [], r2)
        | _ =>
          match jObjF f r1 with
          | some (fs, rest) => some (.jobj fs, rest)
          | none => none
      else if c = '[' then
        let r1 := skipJWs r
        match r1 with
        | ']' :: r2 => some (.jarr [], r2)
        | _ =>
          match jArrF f r1 with
          | some (vs, rest) => some (.jarr vs, rest)
          | none => none
      else if c = '"' then
        match strLit s with
        | some (str, rest) => some (.jstr str, rest)
        | none => none
      else if c = 't' then
        match r with
        | 'r' :: 'u' :: 'e' :: rest => some (.jbool true, rest)
        | _ => none
      else if c = 'f' then
        match r with
        | 'a' :: 'l' :: 's' :: 'e' :: rest => some (.jbool false, rest)
        | _ => none
      else if c = 'n' then
        match r with
        | 'u' :: 'l' :: 'l' :: rest => some (.jnull, rest)
        | _ => none
      else
        match numLit s with
        | some (raw, rest) => some (.jnum raw, rest)
        | none => none

/-- Fuel-indexed parsing of nonempty array items (no leading whitespace). -/
def jArrF : Nat → Str → Option (List JVal × Str)
  | 0, _ => none
  | f + 1, s =>
    match jValF f (skipJWs s) with
    | none => none
    | some (v, rest) =>
      match skipJWs rest with
      | ',' :: r2 =>
        match jArrF f (skipJWs r2) with
        | some (vs, r3) => some (v :: vs, r3)
        | none => none
      | ']' :: r2 => some ([v], r2)
      | _ => none

/-- Fuel-indexed parsing of nonempty object members (no leading whitespace). -/
def jObjF : Nat → Str → Option (List (Str × JVal) × Str)
  | 0, _ => none
  | f + 1, s =>
    match strLit s with
    | none => none
    | some (k, rest) =>
      match skipJWs rest with
      | ':' :: r2 =>
        match jValF f (skipJWs r2) with
        | none => none
        | some (v, r3) =>
          match skipJWs r3 with
          | ',' :: r4 =>
            match jObjF f (skipJWs r4) with
            | some (fs, r5) => some ((k, v) :: fs, r5)
            | none => none
          | '\x7d' :: r4 => some ([(k, v)], r4)
          | _ => none
      | _ => none

end

/-- The model of `serde_json::from_str` at the value level: parses one
JSON value and requires only whitespace to remain. -/
def jsonParse (s : Str) : Option JVal :=
  match jValF (s.length + 1) (skipJWs s) with
  | some (v, rest) => if skipJWs rest = [] then some v else none
  | none => none

/-- First field with the given key (unknown fields are ignored, as with a
default `serde` derive). -/
def getField (fs : List (Str × JVal)) (k : Str) : Option JVal :=
  (fs.find? (fun p => decide (p.1 = k))).map (fun p => p.2)

/-- `ProcessedItem` (processor.rs:9-13): one question/answer pair. -/
structure ProcessedItem where
  question : Str
  answer : Str
deriving DecidableEq

/-- The `serde` extraction for `ChatResponse { message: ChatMessage { content } }`
(processor.rs:379-389): unknown fields are ignored, `message` and
`content` are required. -/
def parseChatContent (body : Str) : Option Str :=
  match jsonParse body with
  | some (.jobj fs) =>
    match getField fs "message".toList with
    | some (.jobj mf) =>
      match getField mf "content".toList with
      | some (.jstr c) => some c
      | _ => none
    | _ => none
  | _ => none

/-- Extracts one `ProcessedItem` from a JSON value. -/
def itemOfJVal : JVal → Option ProcessedItem
  | .jobj fs =>
    match getField fs "question".toList, getField fs "answer".toList with
    | some (.jstr q), some (.jstr a) => some ⟨q, a⟩
    | _, _ => none
  | _ => none

/-- The `serde` parse of `QuestionResponse { questions: Vec<ProcessedItem> }`
(processor.rs:579-582) applied to a text. -/
def parseQuestionResponse (s : Str) : Option (List ProcessedItem) :=
  match jsonParse s with
  | some (.jobj fs) =>
    match getField fs "questions".toList with
    | some (.jarr xs) => xs.mapM itemOfJVal
    | _ => none
  | _ => none

/-- The `serde` parse of one JSONL line as a `ProcessedItem`
(processor.rs:465). -/
def parseItemLine (s : Str) : Option ProcessedItem :=
  match jsonParse s with
  | some v => itemOfJVal v
  | none => none

/-- The `serde` parse of a legacy whole-file `Vec<ProcessedItem>`
(processor.rs:443, 492). -/
def parseItemVec (s : Str) : Option (List ProcessedItem) :=
  match jsonParse s with
  | some (.jarr xs) => xs.mapM itemOfJVal
  | _ => none

/-- One transport-level backend reply: either the `send()` call fails, or
a response arrives with a success flag (`status().is_success()`) and a
body text. -/
inductive BResp where
  | sendErr : BResp
  | resp : Bool → Str → BResp
deriving DecidableEq

/-- A backend oracle: section text, requested question count, attempt
index ↦ reply.  The prompt and system message are functions of the
section text and the count alone (processor.rs:289-326), so no request
information is lost. -/
abbrev Backend := Str → Nat → Nat → BResp

/-- The error outcomes of `process_section`.  The `attempts` payloads
record the counts baked into the source's error messages. -/
inductive PSErr where
  | sendFail : PSErr
  | apiError : Str → PSErr
  | envParseFail : Nat → PSErr
  | qrParseFail : Nat → PSErr
  | loopExhausted : PSErr
deriving DecidableEq

/-- A Rust `Result<Vec<ProcessedItem>>` outcome. -/
inductive SecResult where
  | ok : List ProcessedItem → SecResult
  | err : PSErr → SecResult
deriving DecidableEq

/-- Result of one `process_section` call plus its observable effects:
how many backend requests were sent and how many one-second sleeps ran. -/
structure PSResult where
  res : SecResult
  calls : Nat
  sleeps : Nat
deriving DecidableEq

/-- The retry loop of `process_section` (processor.rs:306-426).
`i` is the current value of `retries`, `rem` is `MAX_RETRIES - retries`.
A non-success status or a transport failure returns immediately; a failed
envelope parse or a failed schema parse of the sanitized content retries
after a sleep, and the third such failure reports 3 attempts. -/
def psLoop (b : Backend) (sec : Str) (tgt : Nat) : Nat → Nat → PSResult
  | _, 0 => ⟨.err .loopExhausted, 0, 0⟩
  | i, rem + 1 =>
    match b sec tgt i with
    | .sendErr => ⟨.err .sendFail, 1, 0⟩
    | .resp ok body =>
      if ok then
        match parseChatContent body with
        | some content =>
          match parseQuestionResponse (sanitize_json content) with
          | some items => ⟨.ok items, 1, 0⟩
          | none =>
            if rem = 0 then ⟨.err (.qrParseFail 3), 1, 0⟩
            else
              let r := psLoop b sec tgt (i + 1) rem
              ⟨r.res, r.calls + 1, r.sleeps + 1⟩
        | none =>
          if rem = 0 then ⟨.err (.envParseFail 3), 1, 0⟩
          else
            let r := psLoop b sec tgt (i + 1) rem
            ⟨r.res, r.calls + 1, r.sleeps + 1⟩
      else ⟨.err (.apiError body), 1, 0⟩

/-- `OllamaProcessor::process_section` (processor.rs:285-427): the
request target comes from the section's own word count, and
`MAX_RETRIES = 3`. -/
def process_section (b : Backend) (sec : Str) : PSResult :=
  psLoop b sec (section_generation_target sec) 0 3

/-- The accumulate-ignoring-errors loop over sub-sections
(processor.rs:233-246 and 259-272), returning the accumulated items and
the number of backend calls made. -/
def subAccumulate (b : Backend) (subs : List Str) : List ProcessedItem × Nat :=
  subs.foldl
    (fun acc sub =>
      let r := process_section b sub
      (match r.res with
        | .ok its => acc.1 ++ its
        | .err _ => acc.1,
       acc.2 + r.calls))
    ([], 0)

/-- `OllamaProcessor::process_section_recursive` (processor.rs:218-283),
returning the result and the total number of backend calls.  A failure of
the whole-section attempt propagates (the `?` at line 222); sub-section
failures are ignored; the heading-level accumulation is discarded
(`all_items.clear()`, line 256) before the paragraph stage. -/
def process_section_recursive (b : Backend) (sec : Str) (target : Nat) :
    SecResult × Nat :=
  let w := process_section b sec
  match w.res with
  | .err e => (.err e, w.calls)
  | .ok items =>
    if target ≤ items.length then (.ok items, w.calls)
    else
      let hs := split_by_headings sec
      let hsr := if 1 < hs.length then subAccumulate b hs else ([], 0)
      if 1 < hs.length ∧ target ≤ hsr.1.length then (.ok hsr.1, w.calls + hsr.2)
      else
        let ps := split_by_paragraphs sec
        let psr := if 1 < ps.length then subAccumulate b ps else ([], 0)
        (.ok psr.1, w.calls + hsr.2 + psr.2)

/-- A file-system write performed by `process_file` or its helpers:
either the JSONL conversion of a legacy JSON file
(`convert_json_to_jsonl`, processor.rs:440-454) or the final save
(processor.rs:565-573).  Both write to the derived `*_qa.jsonl` path. -/
inductive WriteEv where
  | convertWrite : List ProcessedItem → WriteEv
  | saveWrite : List ProcessedItem → WriteEv
deriving DecidableEq

/-- The items recovered from a JSONL file: each line parsed as a
`ProcessedItem`, unparseable lines skipped (processor.rs:463-468). -/
def parsedJsonlItems (content : Str) : List ProcessedItem :=
  (lines content).filterMap parseItemLine

/-- `OllamaProcessor::check_existing_qa` (processor.rs:456-521) with the
file system modelled as the optional contents of the `*_qa.jsonl` and
`*_qa.json` files (reads are assumed to succeed when the file exists).
The legacy JSON file is consulted only when no JSONL file exists; a
successful legacy load is converted (a write).  The unused
`_required_questions` parameter of the source is omitted — the minimum is
recomputed from the document's word count in both branches. -/
def check_existing_qa (docContent : Str) (jsonlFile jsonFile : Option Str) :
    Option (List ProcessedItem × Bool) :=
  match jsonlFile with
  | some c =>
    let items := parsedJsonlItems c
    if items = [] then none
    else if minAcceptableOf docContent ≤ items.length then some (items, false)
    else none
  | none =>
    match jsonFile with
    | some c =>
      match parseItemVec c with
      | some items =>
        if minAcceptableOf docContent ≤ items.length then some (items, true)
        else none
      | none => none
    | none => none

/-- The observable outcome of `process_file`: the returned items, the
total number of backend requests, and the writes performed. -/
structure RunOut where
  items : List ProcessedItem
  calls : Nat
  writes : List WriteEv
deriving DecidableEq

/-- `OllamaProcessor::process_file` (processor.rs:523-576).  The section
target is `ceil(total_questions_needed * section_words / total_words)`
(exact-rational model of the `f64` expression at lines 547-548; for a
whitespace-only document the loop body never runs, so the division-by-zero
edge is unreachable, and `Nat` division by zero yields 0 just as the
`NaN as usize` cast does).  Results are saved only when nonempty. -/
def process_file (b : Backend) (docContent : Str)
    (jsonlFile jsonFile : Option Str) : RunOut :=
  let tw := count_words docContent
  let tqn := (calculate_question_targets tw).2.1
  match check_existing_qa docContent jsonlFile jsonFile with
  | some (items, conv) =>
    ⟨items, 0, if conv then [WriteEv.convertWrite items] else []⟩
  | none =>
    let secs := split_into_sections docContent
    let r := secs.foldl
      (fun (acc : List ProcessedItem × Nat) sec =>
        if wsOnly sec then acc
        else
          let st := (tqn * count_words sec + (tw - 1)) / tw
          let pr := process_section_recursive b sec st
          (match pr.1 with
            | .ok its => acc.1 ++ its
            | .err _ => acc.1,
           acc.2 + pr.2))
      ([], 0)
    ⟨r.1, r.2, if r.1 = [] then [] else [WriteEv.saveWrite r.1]⟩

/-- Whether the trailing-comma regex `,(\s*[\]}])` has a match: some comma
is followed, modulo whitespace, by a closing bracket or brace. -/
def hasCommaClose : Str → Bool
  | [] => false
  | c :: rest =>
    (c = ',' &&
      (match rest.dropWhile isWs with
        | b :: _ => b = ']' || b = '\x7d'
        | [] => false)) ||
    hasCommaClose rest

/-- Whether some backslash is not immediately followed by a double quote
(the lossy branch of the backslash rewrite). -/
def hasBadBackslash : Str → Bool
  | [] => false
  | c :: rest =>
    (c = '\\' && !(rest.head? = some '"')) || hasBadBackslash rest

/-- JSON-encodes a string for embedding inside a JSON document (only the
quote and backslash escapes are needed by the concrete examples). -/
def jEnc (s : Str) : Str :=
  '"' :: s.foldr
    (fun c acc => if c = '"' || c = '\\' then '\\' :: c :: acc else c :: acc)
    ['"']

/-- One well-formed question/answer object in JSON text. -/
def qaObj : Str := "\x7b\"question\":\"q\",\"answer\":\"a\"\x7d".toList

/-- `n` copies of `qaObj` separated by commas. -/
def qaObjs : Nat → Str
  | 0 => []
  | 1 => qaObj
  | n + 2 => qaObj ++ ',' :: qaObjs (n + 1)

/-- A well-formed `QuestionResponse` text with `n` pairs. -/
def innerQuestions (n : Nat) : Str :=
  "\x7b\"questions\":[".toList ++ qaObjs n ++ "]\x7d".toList

/-- A well-formed Ollama chat envelope whose message content is `inner`. -/
def chatBody (inner : Str) : Str :=
  "\x7b\"message\":\x7b\"content\":".toList ++ jEnc inner ++ "\x7d\x7d".toList

/-- The q/a pair appearing in `qaObj`. -/
def qaPair : ProcessedItem := ⟨"q".toList, "a".toList⟩

/-- A backend that always succeeds with five question/answer pairs. -/
def fiveBackend : Backend := fun _ _ _ => .resp true (chatBody (innerQuestions 5))

/-- A single-line section with no headings and no paragraph breaks. -/
def helloSec : Str := "hello".toList

/-- A backend that always answers with a non-success status. -/
def badStatusBackend : Backend := fun _ _ _ => .resp false "boom".toList

/-- A backend whose body never parses as a chat envelope. -/
def garbageBackend : Backend := fun _ _ _ => .resp true "notjson".toList

/-- A short document used to exercise the attempt loop. -/
def docSec : Str := "some documentation text".toList

/-- The truncated payload of the specification's repair scenario
(mid-value cutoff in the second pair). -/
def truncPayload : Str :=
  "\x7b\"questions\":[\x7b\"question\":\"Q1\",\"answer\":\"A1\"\x7d,\x7b\"question\":\"Q2\",\"ans".toList

/-- What the specification says the repair should produce. -/
def truncExpected : Str :=
  "\x7b\"questions\":[\x7b\"question\":\"Q1\",\"answer\":\"A1\"\x7d]\x7d".toList

/-- A 100-word document (no headings, no paragraph breaks). -/
def doc100 : Str := (List.replicate 100 ('w' :: [' '])).flatten

/-- One persisted JSONL line. -/
def piLine : Str := "\x7b\"question\":\"q\",\"answer\":\"a\"\x7d".toList

/-- A JSONL file with `n` valid item lines. -/
def jsonlN (n : Nat) : Str := (List.replicate n (piLine ++ ['\n'])).flatten

/-- A legacy JSON array file with nine items. -/
def json9 : Str := '[' :: qaObjs 9 ++ [']']

/-- A backend whose requests all fail at the transport level. -/
def failBackend : Backend := fun _ _ _ => .sendErr

/-- Parent section for the sub-target examples: two heading-delimited
sub-sections of 11 words each (the `#` marks count as words). -/
def c8parent : Str :=
  "# a\nw w w w w w w w w\n# b\nw w w w w w w w w\n".toList

/-- The first heading sub-section of `c8parent`, as `split_by_headings`
produces it. -/
def c8sub1 : Str := "# a\nw w w w w w w w w\n".toList

/-- A backend that answers only requests for 5 questions (the parent's
own generation target) with one pair, and requests for 1 question (the
proportional sub-target of the claim) with two pairs; every other request
gets a non-success status. -/
def c8backend : Backend := fun _ tgt _ =>
  if tgt = 5 then .resp true (chatBody (innerQuestions 1))
  else if tgt = 1 then .resp true (chatBody (innerQuestions 2))
  else .resp false "no".toList

/-- Two backends that differ only on requests whose question count is NOT
the section's own generation target. -/
def c8wb1 : Backend := fun s tgt _ =>
  if tgt = section_generation_target s then .sendErr else .resp false "x".toList

/-- Second backend of the pair: same on-diagonal behaviour as `c8wb1`,
different elsewhere. -/
def c8wb2 : Backend := fun s tgt _ =>
  if tgt = section_generation_target s then .sendErr else .resp true "y".toList

/-- A plain repaired-form JSON text used to witness idempotence. -/
def c7fix : Str := "\x7b\"a\": 1\x7d".toList

/-- Whether a backend reply drives the attempt loop into its retry path:
a success status whose body either fails the envelope parse or whose
sanitized content fails the schema parse. -/
def retryableResp (r : BResp) : Bool :=
  match r with
  | .resp true body =>
    match parseChatContent body with
    | some c => (parseQuestionResponse (sanitize_json c)).isNone
    | none => true
  | _ => false

/-- C4: the Yield Target Estimator returns
`(max(2, ceil(w/10)), baseGoal + max(2, ceil(baseGoal/4)),
max(2, ceil(4*baseGoal/5)))`, satisfying
`minAcceptable ≤ baseGoal ≤ generationTarget`, `baseGoal ≥ 2` and
`minAcceptable ≥ 2`, with `estimate(100) = (10, 13, 8)` and
`estimate(5) = (2, 4, 2)`. -/
theorem c4_targets_spec :
    (∀ w : Nat,
      (calculate_question_targets w).1 = max 2 (ceilNat w 10) ∧
      (calculate_question_targets w).2.1 =
        (calculate_question_targets w).1 +
          max 2 (ceilNat (calculate_question_targets w).1 4) ∧
      (calculate_question_targets w).2.2 =
        max 2 (ceilNat (4 * (calculate_question_targets w).1) 5) ∧
      (calculate_question_targets w).2.2 ≤ (calculate_question_targets w).1 ∧
      (calculate_question_targets w).1 ≤ (calculate_question_targets w).2.1 ∧
      2 ≤ (calculate_question_targets w).1 ∧
      2 ≤ (calculate_question_targets w).2.2) ∧
    calculate_question_targets 100 = (10, 13, 8) ∧
    calculate_question_targets 5 = (2, 4, 2) := by
  refine ⟨fun w => ?_, by decide, by decide⟩
  simp only [calculate_question_targets, ceilNat]
  refine ⟨by omega, by omega, by omega, ?_, by omega, by omega, by omega⟩
  omega

/-- C3 (code defect): on the specification's truncated payload the repair
cuts BEFORE the last complete question/answer pair (the `rfind` for
`{"question":` lands on the pair that owns the matched `","answer":`) and
appends `]}}}` — one closing brace too many for the actual
one-object-deep schema — producing `{"questions":[]}}}`, which is not
valid JSON at all, instead of recovering the Q1/A1 pair. -/
theorem c3_truncation_bug :
    sanitize_json truncPayload = "\x7b\"questions\":[]\x7d\x7d\x7d".toList ∧
    parseQuestionResponse (sanitize_json truncPayload) = none ∧
    parseQuestionResponse truncExpected =
      some [⟨"Q1".toList, "A1".toList⟩] := by decide

/-- C7 counterexample: the trailing-comma removal resumes scanning after
each replacement, so stacked commas need one pass each: repairing `",,}"`
gives `",}"`, and repairing that gives `"}"`. -/
theorem c7_sanitize_idem_counterexample :
    sanitize_json (sanitize_json (",,\x7d".toList)) ≠
      sanitize_json (",,\x7d".toList) := by decide

/-- C6 counterexample: the splitters rebuild sections line-by-line with a
trailing `'\n'` per line and drop a whitespace-only trailing accumulation,
so concatenation does not reproduce the input: `"a\n\n\n"` loses its last
blank line under paragraph splitting, and `"a"` gains a newline under
heading splitting. -/
theorem c6_roundtrip_counterexample :
    (split_by_paragraphs ("a\n\n\n".toList)).flatten ≠ "a\n\n\n".toList ∧
    (split_by_headings ("a".toList)).flatten ≠ "a".toList := by decide

/-- C9 counterexample: `split_into_sections` recognizes only `#` or `##`
followed by whitespace, so the line `"### b"` — which starts with one or
more `'#'` — does not begin a new chunk there. -/
theorem c9_heading_counterexample :
    split_into_sections ("a\n### b".toList) = ["a\n### b\n".toList] ∧
    ("### b".toList).head? = some '#' := by decide

/-- C1 counterexample: a chunk with no headings and no paragraph breaks
whose whole-chunk attempt yields five items against a target of ten: both
splits produce a single sub-chunk, both stages are skipped, and the
controller returns the cleared (empty) accumulation — fewer items than
the best single attempt made during its run. -/
theorem c1_controller_counterexample :
    (process_section_recursive fiveBackend helloSec 10).1 = .ok [] ∧
    (process_section fiveBackend helloSec).res =
      .ok (List.replicate 5 qaPair) := by decide

/-- C2 counterexample: a non-success backend status makes
`process_section` fail immediately on the first attempt — one backend
call, no sleep, and an error that is not the retries-exhausted failure. -/
theorem c2_retry_counterexample :
    process_section badStatusBackend docSec =
      ⟨.err (.apiError ("boom".toList)), 1, 0⟩ := by decide

/-- C8 counterexample: for a parent of 22 words with target 2 and an
11-word heading sub-chunk, the claim's proportional target is
`ceil(2*11/22) = 1`, but the sub-chunk request asks for the sub-chunk's
own generation target 4: a backend that accepts only 1-question requests
for the sub-chunks fails them (the accumulation stays empty), although a
1-question request on the same sub-chunk would have returned two pairs. -/
theorem c8_subtarget_counterexample :
    (process_section_recursive c8backend c8parent 2).1 = .ok [] ∧
    section_generation_target c8sub1 = 4 ∧
    ceilNat (2 * count_words c8sub1) (count_words c8parent) = 1 ∧
    (process_section c8backend c8sub1).res = .err (.apiError ("no".toList)) ∧
    (psLoop c8backend c8sub1 1 0 3).res = .ok [qaPair, qaPair] := by decide

/-- C5 counterexample: when a JSONL file exists with too few items, the
legacy JSON file is never consulted — the document is regenerated
(backend calls happen) even though the legacy persisted result holds
9 ≥ minAcceptable = 8 items. -/
theorem c5_existing_counterexample :
    parseItemVec json9 = some (List.replicate 9 qaPair) ∧
    minAcceptableOf doc100 = 8 ∧
    (process_file failBackend doc100 (some (jsonlN 3)) (some json9)).calls = 1 ∧
    (process_file failBackend doc100 (some (jsonlN 3)) (some json9)).items
      = [] := by decide

/-- A retryable reply makes the attempt loop sleep once and recurse when
retries remain. -/
theorem psLoop_retry_step (b : Backend) (sec : Str) (t i rem : Nat)
    (h : retryableResp (b sec t i) = true) :
    psLoop b sec t i (rem + 2) =
      ⟨(psLoop b sec t (i + 1) (rem + 1)).res,
       (psLoop b sec t (i + 1) (rem + 1)).calls + 1,
       (psLoop b sec t (i + 1) (rem + 1)).sleeps + 1⟩ := by
  cases hb : b sec t i with
  | sendErr => simp [retryableResp, hb] at h
  | resp ok body =>
    cases ok with
    | false => simp [retryableResp, hb] at h
    | true =>
      simp only [retryableResp, hb] at h
      cases hpc : parseChatContent body with
      | none => simp [psLoop, hb, hpc]
      | some c =>
        rw [hpc] at h
        have hq : parseQuestionResponse (sanitize_json c) = none :=
          Option.isNone_iff_eq_none.mp h
        simp [psLoop, hb, hpc, hq]

/-- A retryable reply on the last remaining attempt produces the
attempts-exhausted parse failure reporting 3 attempts. -/
theorem psLoop_retry_last (b : Backend) (sec : Str) (t i : Nat)
    (h : retryableResp (b sec t i) = true) :
    ∃ e, psLoop b sec t i 1 = ⟨.err e, 1, 0⟩ ∧
      (e = PSErr.envParseFail 3 ∨ e = PSErr.qrParseFail 3) := by
  cases hb : b sec t i with
  | sendErr => simp [retryableResp, hb] at h
  | resp ok body =>
    cases ok with
    | false => simp [retryableResp, hb] at h
    | true =>
      simp only [retryableResp, hb] at h
      cases hpc : parseChatContent body with
      | none =>
        refine ⟨.envParseFail 3, ?_, Or.inl rfl⟩
        simp [psLoop, hb, hpc]
      | some c =>
        rw [hpc] at h
        have hq : parseQuestionResponse (sanitize_json c) = none :=
          Option.isNone_iff_eq_none.mp h
        refine ⟨.qrParseFail 3, ?_, Or.inr rfl⟩
        simp [psLoop, hb, hpc, hq]

/-- C2 amended: only a failed envelope parse or a failed schema parse is
retried — up to 3 total attempts with one one-second sleep between
consecutive attempts (so 2 sleeps), failing with an error that reports
3 attempts.  A non-success backend status or a transport failure aborts
immediately on the first occurrence, with one backend call and no sleep. -/
theorem c2_retry_amended (b : Backend) (sec : Str) :
    (∀ body, b sec (section_generation_target sec) 0 = .resp false body →
      process_section b sec = ⟨.err (.apiError body), 1, 0⟩) ∧
    (b sec (section_generation_target sec) 0 = .sendErr →
      process_section b sec = ⟨.err .sendFail, 1, 0⟩) ∧
    ((∀ i, i < 3 →
        retryableResp (b sec (section_generation_target sec) i) = true) →
      (process_section b sec).calls = 3 ∧
      (process_section b sec).sleeps = 2 ∧
      ∃ e, (process_section b sec).res = .err e ∧
        (e = PSErr.envParseFail 3 ∨ e = PSErr.qrParseFail 3)) := by
  refine ⟨?_, ?_, ?_⟩
  · intro body h
    simp [process_section, psLoop, h]
  · intro h
    simp [process_section, psLoop, h]
  · intro h
    have h0 := h 0 (by omega)
    have h1 := h 1 (by omega)
    have h2 := h 2 (by omega)
    have e0 := psLoop_retry_step b sec (section_generation_target sec) 0 1 h0
    have e1 := psLoop_retry_step b sec (section_generation_target sec) 1 0 h1
    obtain ⟨e, he, hk⟩ :=
      psLoop_retry_last b sec (section_generation_target sec) 2 h2
    refine ⟨?_, ?_, e, ?_, hk⟩ <;>
      simp [process_section, e0, e1, he]

/-- Witness for the amended C2: a non-success status aborts after one
call, and a never-parsing body exhausts exactly 3 attempts with 2 sleeps. -/
theorem c2_retry_amended_witness :
    process_section badStatusBackend helloSec =
      ⟨.err (.apiError ("boom".toList)), 1, 0⟩ ∧
    ((process_section garbageBackend docSec).calls = 3 ∧
      (process_section garbageBackend docSec).sleeps = 2 ∧
      ∃ e, (process_section garbageBackend docSec).res = .err e ∧
        (e = PSErr.envParseFail 3 ∨ e = PSErr.qrParseFail 3)) :=
  ⟨(c2_retry_amended badStatusBackend helloSec).1 ("boom".toList) rfl,
   (c2_retry_amended garbageBackend docSec).2.2
     (fun _ _ => by
       show retryableResp (BResp.resp true ("notjson".toList)) = true
       decide)⟩

/-- C1 amended: the controller returns the whole-chunk items when they
meet the target (and propagates a whole-chunk error); but when the final
result is below target, it is exactly the paragraph-level accumulation
(empty when the paragraph split yields at most one sub-chunk) — earlier
attempts, including the whole-chunk yield and the heading-level
accumulation, are discarded, so the result can be smaller than the best
single attempt made during the run. -/
theorem c1_controller_amended (b : Backend) (sec : Str) (tgt : Nat) :
    (∀ e, (process_section b sec).res = .err e →
      process_section_recursive b sec tgt =
        (.err e, (process_section b sec).calls)) ∧
    (∀ items, (process_section b sec).res = .ok items → tgt ≤ items.length →
      process_section_recursive b sec tgt =
        (.ok items, (process_section b sec).calls)) ∧
    (∀ r, (process_section_recursive b sec tgt).1 = .ok r → r.length < tgt →
      r = (if 1 < (split_by_paragraphs sec).length
           then (subAccumulate b (split_by_paragraphs sec)).1
           else [])) := by
  refine ⟨?_, ?_, ?_⟩
  · intro e he
    simp [process_section_recursive, he]
  · intro items hi hlen
    simp [process_section_recursive, hi, hlen]
  · intro r hr hlt
    simp only [process_section_recursive] at hr
    cases hw : (process_section b sec).res with
    | err e => simp [hw] at hr
    | ok items =>
      simp only [hw] at hr
      by_cases h1 : tgt ≤ items.length
      · rw [if_pos h1] at hr
        simp at hr
        subst hr
        omega
      · rw [if_neg h1] at hr
        by_cases h2 : 1 < (split_by_headings sec).length ∧
            tgt ≤ (if 1 < (split_by_headings sec).length
                   then subAccumulate b (split_by_headings sec)
                   else ([], 0)).1.length
        · rw [if_pos h2] at hr
          simp at hr
          rw [hr] at h2
          omega
        · rw [if_neg h2] at hr
          simp at hr
          rw [← hr]
          by_cases hc : 1 < (split_by_paragraphs sec).length <;> simp [hc]

/-- Witness for the amended C1: with a target of 3 the five-item
whole-chunk yield is returned as-is, and in the ten-target run whose
result is below target the returned items are exactly the (empty)
paragraph-level accumulation. -/
theorem c1_controller_amended_witness :
    process_section_recursive fiveBackend helloSec 3 =
      (.ok (List.replicate 5 qaPair),
       (process_section fiveBackend helloSec).calls) ∧
    ([] : List ProcessedItem) =
      (if 1 < (split_by_paragraphs helloSec).length
       then (subAccumulate fiveBackend (split_by_paragraphs helloSec)).1
       else []) :=
  ⟨(c1_controller_amended fiveBackend helloSec 3).2.1
      (List.replicate 5 qaPair) (by decide) (by decide),
   (c1_controller_amended fiveBackend helloSec 10).2.2
      [] (by decide) (by decide)⟩

/-- The attempt loop depends on the backend only at the target it was
given. -/
theorem psLoop_congr (b1 b2 : Backend) (s : Str) (t : Nat)
    (h : ∀ i, b1 s t i = b2 s t i) :
    ∀ rem i, psLoop b1 s t i rem = psLoop b2 s t i rem := by
  intro rem
  induction rem with
  | zero => intro i; rfl
  | succ n ih =>
    intro i
    simp only [psLoop, h i, ih]

/-- `process_section` queries the backend only at the section's own
generation target. -/
theorem process_section_congr (b1 b2 : Backend)
    (h : ∀ s i, b1 s (section_generation_target s) i =
      b2 s (section_generation_target s) i) (s : Str) :
    process_section b1 s = process_section b2 s :=
  psLoop_congr b1 b2 s (section_generation_target s) (fun i => h s i) 3 0

/-- The sub-section accumulation queries the backend only at each
sub-section's own generation target. -/
theorem subAccumulate_congr (b1 b2 : Backend)
    (h : ∀ s i, b1 s (section_generation_target s) i =
      b2 s (section_generation_target s) i) (subs : List Str) :
    subAccumulate b1 subs = subAccumulate b2 subs := by
  unfold subAccumulate
  congr 1
  funext acc sub
  rw [process_section_congr b1 b2 h sub]

/-- C8 amended: the proportional sub-target
`ceil(parentTarget * subWords / parentWords)` is computed for logging
only; every request the controller issues — for the whole chunk and for
each heading- or paragraph-level sub-chunk — asks for the chunk's own
word-count-derived generation target.  Consequently two backends that
agree on requests at each chunk's own generation target produce
identical runs, however they behave at the claimed proportional targets. -/
theorem c8_subtarget_amended (b1 b2 : Backend) (sec : Str) (tgt : Nat)
    (h : ∀ s i, b1 s (section_generation_target s) i =
      b2 s (section_generation_target s) i) :
    process_section_recursive b1 sec tgt =
      process_section_recursive b2 sec tgt := by
  simp only [process_section_recursive]
  rw [process_section_congr b1 b2 h sec,
    subAccumulate_congr b1 b2 h (split_by_headings sec),
    subAccumulate_congr b1 b2 h (split_by_paragraphs sec)]

/-- Witness for the amended C8: two backends that differ on every request
whose count is not the section's own generation target still produce the
same run. -/
theorem c8_subtarget_amended_witness :
    process_section_recursive c8wb1 c8parent 7 =
      process_section_recursive c8wb2 c8parent 7 :=
  c8_subtarget_amended c8wb1 c8wb2 c8parent 7
    (fun s i => by simp [c8wb1, c8wb2])

/-- C5 amended: the per-line file shadows the legacy file.  When the
JSONL file exists and its parseable lines are at least the document's
minimum-acceptable count, they are returned with zero backend calls and
no writes (whatever the legacy file holds); when no JSONL file exists and
the legacy JSON array parses with at least that count, its items are
returned with zero backend calls and a conversion write.  (A JSONL file
below the minimum triggers regeneration even if a sufficient legacy file
exists — see the counterexample.) -/
theorem c5_existing_amended (b : Backend) (doc c : Str) :
    (∀ json, parsedJsonlItems c ≠ [] →
      minAcceptableOf doc ≤ (parsedJsonlItems c).length →
      process_file b doc (some c) json = ⟨parsedJsonlItems c, 0, []⟩) ∧
    (∀ items, parseItemVec c = some items →
      minAcceptableOf doc ≤ items.length →
      process_file b doc none (some c) =
        ⟨items, 0, [WriteEv.convertWrite items]⟩) := by
  constructor
  · intro json hne hmin
    simp only [process_file, check_existing_qa]
    rw [if_neg hne, if_pos hmin]
    simp
  · intro items hpv hmin
    simp only [process_file, check_existing_qa, hpv]
    rw [if_pos hmin]
    simp

/-- Witness for the amended C5: a 9-line JSONL file over a 100-word
document (minimum acceptable 8) is returned as-is with zero backend
calls; a 9-item legacy array with no JSONL file is returned with zero
backend calls and one conversion write. -/
theorem c5_existing_amended_witness :
    process_file failBackend doc100 (some (jsonlN 9)) none =
      ⟨parsedJsonlItems (jsonlN 9), 0, []⟩ ∧
    process_file failBackend doc100 none (some json9) =
      ⟨List.replicate 9 qaPair, 0,
       [WriteEv.convertWrite (List.replicate 9 qaPair)]⟩ :=
  ⟨(c5_existing_amended failBackend doc100 (jsonlN 9)).1 none
      (by decide) (by decide),
   (c5_existing_amended failBackend doc100 json9).2
      (List.replicate 9 qaPair) (by decide) (by decide)⟩

/-- The minimum-acceptable count is always at least 2. -/
theorem two_le_minAcceptableOf (doc : Str) : 2 ≤ minAcceptableOf doc :=
  Nat.le_max_right _ 2

/-- A successful existing-data check never returns an empty item list. -/
theorem check_existing_qa_ne_nil (doc : Str) (jl jf : Option Str)
    (items : List ProcessedItem) (conv : Bool)
    (h : check_existing_qa doc jl jf = some (items, conv)) : items ≠ [] := by
  cases jl with
  | some c =>
    simp only [check_existing_qa] at h
    by_cases he : parsedJsonlItems c = []
    · rw [if_pos he] at h; cases h
    · rw [if_neg he] at h
      by_cases hm : minAcceptableOf doc ≤ (parsedJsonlItems c).length
      · rw [if_pos hm] at h
        injection h with h
        injection h with h1 h2
        rw [← h1]; exact he
      · rw [if_neg hm] at h; cases h
  | none =>
    cases jf with
    | none => simp only [check_existing_qa] at h; cases h
    | some c =>
      simp only [check_existing_qa] at h
      cases hv : parseItemVec c with
      | none => simp only [hv] at h; cases h
      | some its =>
        simp only [hv] at h
        by_cases hm : minAcceptableOf doc ≤ its.length
        · rw [if_pos hm] at h
          injection h with h
          injection h with h1 h2
          rw [← h1]
          have h2le : 2 ≤ its.length := le_trans (two_le_minAcceptableOf doc) hm
          intro hnil
          rw [hnil] at h2le
          simp at h2le
        · rw [if_neg hm] at h; cases h

/-- C10: when processing a document returns no items at all, no Q&A file
is created or modified — in particular an existing below-minimum
persisted file at the derived path stays in place. -/
theorem c10_no_write_confirmed (b : Backend) (doc : Str)
    (jsonl json : Option Str)
    (h : (process_file b doc jsonl json).items = []) :
    (process_file b doc jsonl json).writes = [] := by
  unfold process_file at h ⊢
  cases hce : check_existing_qa doc jsonl json with
  | some p =>
    obtain ⟨items, conv⟩ := p
    simp only [hce] at h
    exact absurd h (check_existing_qa_ne_nil doc jsonl json items conv hce)
  | none =>
    simp only [hce] at h ⊢
    rw [if_pos h]

/-- Witness for C10: a failing backend yields no items and no writes. -/
theorem c10_no_write_confirmed_witness :
    (process_file failBackend helloSec none none).items = [] ∧
    (process_file failBackend helloSec none none).writes = [] :=
  ⟨by decide, c10_no_write_confirmed failBackend helloSec none none (by decide)⟩

/-- Without a comma-before-closing-bracket occurrence, the trailing-comma
scan is the identity. -/
theorem commaScanF_id : ∀ (f : Nat) (s : Str),
    hasCommaClose s = false → commaScanF f s = s := by
  intro f
  induction f with
  | zero => intro s _; rfl
  | succ n ih =>
    intro s h
    cases s with
    | nil => rfl
    | cons c rest =>
      simp only [hasCommaClose, Bool.or_eq_false_iff,
        Bool.and_eq_false_iff] at h
      obtain ⟨h1, h2⟩ := h
      by_cases hc : c = ','
      · subst hc
        cases hd : rest.dropWhile isWs with
        | nil =>
          have hre := ih rest h2
          simp [commaScanF, hd, hre]
        | cons b r3 =>
          have hb : (b = ']' || b = '\x7d') = false := by
            rcases h1 with hcc | hx
            · simp at hcc
            · rw [hd] at hx
              simpa using hx
          have hre := ih rest h2
          simp only [decide_eq_false_iff_not] at hb
          simp [commaScanF, hd, hb, hre]
      · simp [commaScanF, hc, ih rest h2]

/-- Without a newline, the newline-collapsing scan is the identity. -/
theorem newlineScanF_id : ∀ (f : Nat) (s : Str),
    s.contains '\n' = false → newlineScanF f s = s := by
  intro f
  induction f with
  | zero => intro s _; rfl
  | succ n ih =>
    intro s h
    cases s with
    | nil => rfl
    | cons c rest =>
      have hmem : ('\n' ∈ c :: rest) = False := by
        simp only [eq_iff_iff, iff_false]
        intro hm
        have hm2 := List.elem_iff.mpr hm
        have hco : List.elem '\n' (c :: rest) = false := h
        rw [hco] at hm2
        cases hm2
      have hcond : (isWs c && ((c :: rest).takeWhile isWs).contains '\n')
          = false := by
        cases htw : ((c :: rest).takeWhile isWs).contains '\n' with
        | false => simp
        | true =>
          exfalso
          have htw2 : '\n' ∈ (c :: rest).takeWhile isWs :=
            List.elem_iff.mp htw
          have : '\n' ∈ c :: rest := (List.takeWhile_prefix isWs).subset htw2
          rw [hmem] at this
          exact this
      simp only [newlineScanF, hcond, Bool.false_eq_true, if_false]
      have hres : rest.contains '\n' = false := by
        cases hr : rest.contains '\n' with
        | false => rfl
        | true =>
          exfalso
          have hr2 : '\n' ∈ rest := List.elem_iff.mp hr
          have : '\n' ∈ c :: rest := List.mem_cons_of_mem c hr2
          rw [hmem] at this
          exact this
      rw [ih rest hres]

/-- When every backslash is followed by a double quote, the backslash
rewrite is the identity. -/
theorem fixBackslashes_id : ∀ (n : Nat) (s : Str), s.length ≤ n →
    hasBadBackslash s = false → fixBackslashes s = s := by
  intro n
  induction n with
  | zero =>
    intro s hl _
    have : s = [] := List.eq_nil_of_length_eq_zero (Nat.le_zero.mp hl)
    rw [this]
    rfl
  | succ n ih =>
    intro s hl h
    cases s with
    | nil => rfl
    | cons c rest =>
      simp only [hasBadBackslash, Bool.or_eq_false_iff,
        Bool.and_eq_false_iff] at h
      obtain ⟨h1, h2⟩ := h
      by_cases hc : c = '\\'
      · subst hc
        cases rest with
        | nil =>
          exfalso
          cases h1 with
          | inl hx => simp at hx
          | inr hx => simp at hx
        | cons d r2 =>
          have hd : d = '"' := by
            cases h1 with
            | inl hx => simp at hx
            | inr hx =>
              simp only [List.head?, Bool.not_eq_false] at hx
              simpa using hx
          subst hd
          have hr2 : hasBadBackslash r2 = false := by
            simpa [hasBadBackslash] using h2
          have hrec := ih r2 (by simp at hl; omega) hr2
          rw [fixBackslashes.eq_3]
          simp [hrec]
      · have hrec := ih rest (by simp at hl; omega) h2
        cases rest with
        | nil => simp [fixBackslashes, hc]
        | cons d r2 =>
          rw [fixBackslashes.eq_3, if_neg hc, hrec]

/-- C7 amended: repair is not idempotent in general (see the
counterexample), but it is idempotent on every input whose repaired form
does not re-trigger a repair stage: no leading code-fence token, a
closing brace at the (whitespace-trimmed) end, no comma followed modulo
whitespace by a closing bracket or brace, no newline, and no backslash
without a following double quote. -/
theorem c7_sanitize_idem_amended (x : Str)
    (h1 : fenceOpen.isPrefixOf (sanitize_json x) = false)
    (h2 : endsWithBrace (sanitize_json x) = true)
    (h3 : hasCommaClose (sanitize_json x) = false)
    (h4 : (sanitize_json x).contains '\n' = false)
    (h5 : hasBadBackslash (sanitize_json x) = false) :
    sanitize_json (sanitize_json x) = sanitize_json x := by
  have hsf : stripCodeFence (sanitize_json x) = sanitize_json x := by
    unfold stripCodeFence
    simp [h1]
  have htf : truncFix (sanitize_json x) = sanitize_json x := by
    unfold truncFix
    rw [if_pos h2]
  have hcs : commaScan (sanitize_json x) = sanitize_json x :=
    commaScanF_id (sanitize_json x).length (sanitize_json x) h3
  have hns : newlineScan (sanitize_json x) = sanitize_json x :=
    newlineScanF_id (sanitize_json x).length (sanitize_json x) h4
  have hfb : fixBackslashes (sanitize_json x) = sanitize_json x :=
    fixBackslashes_id (sanitize_json x).length (sanitize_json x)
      (le_refl _) h5
  calc sanitize_json (sanitize_json x)
      = fixBackslashes (newlineScan (commaScan (truncFix
          (stripCodeFence (sanitize_json x))))) := rfl
    _ = sanitize_json x := by rw [hsf, htf, hcs, hns, hfb]

/-- Witness for the amended C7: the repaired form of a plain JSON object
triggers no repair stage, so repairing twice equals repairing once. -/
theorem c7_sanitize_idem_amended_witness :
    sanitize_json (sanitize_json c7fix) = sanitize_json c7fix :=
  c7_sanitize_idem_amended c7fix (by decide) (by decide) (by decide)
    (by decide) (by decide)

/-- One heading-splitter step preserves the rebuilt text: the flattened
sections plus the accumulator grow by exactly the processed line and its
`'\n'`. -/
theorem hbStep_flatten (st : List Str × Str) (l : Str) :
    (hbStep st l).1.flatten ++ (hbStep st l).2 =
      st.1.flatten ++ st.2 ++ (l ++ ['\n']) := by
  unfold hbStep
  by_cases hh : l.head? = some '#'
  · rw [if_pos hh]
    by_cases hw : wsOnly st.2 = true
    · rw [if_pos hw]; simp [List.append_assoc]
    · rw [if_neg hw]; simp [List.append_assoc]
  · rw [if_neg hh]; simp [List.append_assoc]

/-- The heading-splitter fold rebuilds exactly the processed lines. -/
theorem foldl_hbStep_flatten : ∀ (ls : List Str) (st : List Str × Str),
    (ls.foldl hbStep st).1.flatten ++ (ls.foldl hbStep st).2 =
      st.1.flatten ++ (st.2 ++ unlines ls) := by
  intro ls
  induction ls with
  | nil => intro st; simp [unlines]
  | cons l ls ih =>
    intro st
    rw [List.foldl_cons]
    calc (ls.foldl hbStep (hbStep st l)).1.flatten ++
          (ls.foldl hbStep (hbStep st l)).2
        = (hbStep st l).1.flatten ++ ((hbStep st l).2 ++ unlines ls) :=
          ih (hbStep st l)
      _ = ((hbStep st l).1.flatten ++ (hbStep st l).2) ++ unlines ls := by
          rw [List.append_assoc]
      _ = (st.1.flatten ++ st.2 ++ (l ++ ['\n'])) ++ unlines ls := by
          rw [hbStep_flatten]
      _ = st.1.flatten ++ (st.2 ++ unlines (l :: ls)) := by
          simp [unlines, List.append_assoc]

/-- In the heading splitter a whitespace-only accumulator means nothing
has been pushed yet. -/
theorem hbStep_ws (st : List Str × Str) (l : Str)
    (h : wsOnly st.2 = true → st.1 = []) :
    wsOnly (hbStep st l).2 = true → (hbStep st l).1 = [] := by
  unfold hbStep
  by_cases hh : l.head? = some '#'
  · rw [if_pos hh]
    by_cases hw : wsOnly st.2 = true
    · rw [if_pos hw]
      intro _
      exact h hw
    · rw [if_neg hw]
      intro hcontra
      exfalso
      cases l with
      | nil => simp at hh
      | cons a t =>
        simp only [List.head?, Option.some.injEq] at hh
        subst hh
        simp [wsOnly, isWs] at hcontra
  · rw [if_neg hh]
    intro hcontra
    simp only [wsOnly, List.all_append, Bool.and_eq_true] at hcontra
    exact h (by simp [wsOnly, hcontra.1])

/-- Fold form of `hbStep_ws`. -/
theorem foldl_hbStep_ws : ∀ (ls : List Str) (st : List Str × Str),
    (wsOnly st.2 = true → st.1 = []) →
    wsOnly (ls.foldl hbStep st).2 = true → (ls.foldl hbStep st).1 = [] := by
  intro ls
  induction ls with
  | nil => intro st h; exact h
  | cons l ls ih =>
    intro st h
    rw [List.foldl_cons]
    exact ih (hbStep st l) (hbStep_ws st l h)

/-- One paragraph-splitter step preserves the rebuilt text. -/
theorem pgStep_flatten (st : List Str × Str × Nat) (l : Str) :
    (pgStep st l).1.flatten ++ (pgStep st l).2.1 =
      st.1.flatten ++ st.2.1 ++ (l ++ ['\n']) := by
  unfold pgStep
  by_cases hw : wsOnly l = true
  · rw [if_pos hw]
    by_cases hp : (2 ≤ st.2.2 + 1 && !wsOnly st.2.1) = true
    · rw [if_pos hp]; simp [List.append_assoc]
    · rw [if_neg hp]; simp [List.append_assoc]
  · rw [if_neg hw]; simp [List.append_assoc]

/-- The paragraph-splitter fold rebuilds exactly the processed lines. -/
theorem foldl_pgStep_flatten : ∀ (ls : List Str) (st : List Str × Str × Nat),
    (ls.foldl pgStep st).1.flatten ++ (ls.foldl pgStep st).2.1 =
      st.1.flatten ++ (st.2.1 ++ unlines ls) := by
  intro ls
  induction ls with
  | nil => intro st; simp [unlines]
  | cons l ls ih =>
    intro st
    rw [List.foldl_cons]
    calc (ls.foldl pgStep (pgStep st l)).1.flatten ++
          (ls.foldl pgStep (pgStep st l)).2.1
        = (pgStep st l).1.flatten ++ ((pgStep st l).2.1 ++ unlines ls) :=
          ih (pgStep st l)
      _ = ((pgStep st l).1.flatten ++ (pgStep st l).2.1) ++ unlines ls := by
          rw [List.append_assoc]
      _ = (st.1.flatten ++ st.2.1 ++ (l ++ ['\n'])) ++ unlines ls := by
          rw [pgStep_flatten]
      _ = st.1.flatten ++ (st.2.1 ++ unlines (l :: ls)) := by
          simp [unlines, List.append_assoc]

/-- The paragraph splitter only ever pushes non-whitespace sections. -/
theorem pgStep_nonws (st : List Str × Str × Nat) (l : Str)
    (h : ∀ x ∈ st.1, wsOnly x = false) :
    ∀ x ∈ (pgStep st l).1, wsOnly x = false := by
  unfold pgStep
  by_cases hw : wsOnly l = true
  · rw [if_pos hw]
    by_cases hp : (2 ≤ st.2.2 + 1 && !wsOnly st.2.1) = true
    · rw [if_pos hp]
      intro x hx
      rcases List.mem_append.mp hx with hx1 | hx2
      · exact h x hx1
      · have : x = st.2.1 := by simpa using hx2
        subst this
        have := hp
        simp only [Bool.and_eq_true, Bool.not_eq_true'] at this
        exact this.2
    · rw [if_neg hp]; exact h
  · rw [if_neg hw]; exact h

/-- Fold form of `pgStep_nonws`. -/
theorem foldl_pgStep_nonws : ∀ (ls : List Str) (st : List Str × Str × Nat),
    (∀ x ∈ st.1, wsOnly x = false) →
    ∀ x ∈ (ls.foldl pgStep st).1, wsOnly x = false := by
  intro ls
  induction ls with
  | nil => intro st h; exact h
  | cons l ls ih =>
    intro st h
    rw [List.foldl_cons]
    exact ih (pgStep st l) (pgStep_nonws st l h)

/-- C6 amended: concatenating the chunks reproduces the input only up to
newline normalization.  For `split_by_headings` the concatenation is the
input with every line terminated by exactly one `'\n'` (`normText`), or
the input itself when it is whitespace-only (fallback).  For
`split_by_paragraphs` the concatenation is that normalized text minus a
whitespace-only suffix — a trailing blank accumulation is dropped — or
the input itself when whitespace-only. -/
theorem c6_roundtrip_amended (s : Str) :
    ((split_by_headings s).flatten =
      if wsOnly (normText s) then s else normText s) ∧
    (if wsOnly (normText s) then (split_by_paragraphs s).flatten = s
     else ∃ t, wsOnly t = true ∧
       (split_by_paragraphs s).flatten ++ t = normText s) := by
  constructor
  · simp only [split_by_headings]
    have hjoin := foldl_hbStep_flatten (lines s) ([], [])
    simp only [List.flatten_nil, List.nil_append] at hjoin
    have hws := foldl_hbStep_ws (lines s) ([], []) (fun _ => rfl)
    set st := (lines s).foldl hbStep ([], []) with hst
    by_cases hw : wsOnly st.2 = true
    · have h1 : st.1 = [] := hws hw
      have hnorm : normText s = st.2 := by
        rw [normText, ← hjoin, h1]; simp
      rw [if_pos hw, h1]
      simp only [if_pos rfl]
      rw [hnorm, if_pos hw]
      simp
    · have hne : ¬ wsOnly (normText s) = true := by
        intro hcon
        rw [normText, ← hjoin] at hcon
        simp only [wsOnly, List.all_append, Bool.and_eq_true] at hcon
        exact hw (by simp [wsOnly, hcon.2])
      rw [if_neg hw]
      have hne2 : st.1 ++ [st.2] ≠ [] := by simp
      rw [if_neg hne2, if_neg hne]
      rw [normText, ← hjoin]
      simp
  · simp only [split_by_paragraphs]
    have hjoin := foldl_pgStep_flatten (lines s) ([], [], 0)
    simp only [List.flatten_nil, List.nil_append] at hjoin
    have hnon := foldl_pgStep_nonws (lines s) ([], [], 0) (by simp)
    set st := (lines s).foldl pgStep ([], [], 0) with hst
    by_cases hw : wsOnly st.2.1 = true
    · rw [if_pos hw]
      by_cases h1 : st.1 = []
      · have hnorm : normText s = st.2.1 := by
          rw [normText, ← hjoin, h1]; simp
        have hcond : wsOnly (normText s) = true := by rw [hnorm]; exact hw
        rw [if_pos hcond, h1]
        simp only [if_pos rfl]
        simp
      · obtain ⟨x, rest, hx⟩ : ∃ x rest, st.1 = x :: rest := by
          cases hc : st.1 with
          | nil => exact absurd hc h1
          | cons a b => exact ⟨a, b, rfl⟩
        have hxnw : wsOnly x = false := hnon x (by rw [hx]; simp)
        have hcond : ¬ wsOnly (normText s) = true := by
          intro hcon
          rw [normText, ← hjoin, hx] at hcon
          simp only [wsOnly, List.flatten_cons, List.all_append,
            Bool.and_eq_true] at hcon
          rw [wsOnly] at hxnw
          rw [hcon.1.1] at hxnw
          cases hxnw
        rw [if_neg hcond, if_neg h1]
        refine ⟨st.2.1, hw, ?_⟩
        rw [normText, ← hjoin]
    · rw [if_neg hw]
      have hne2 : st.1 ++ [st.2.1] ≠ [] := by simp
      rw [if_neg hne2]
      have hcond : ¬ wsOnly (normText s) = true := by
        intro hcon
        rw [normText, ← hjoin] at hcon
        simp only [wsOnly, List.all_append, Bool.and_eq_true] at hcon
        exact hw (by simp [wsOnly, hcon.2])
      rw [if_neg hcond]
      refine ⟨[], rfl, ?_⟩
      rw [normText, ← hjoin]
      simp

/-- Taking up to the first newline ignores anything appended after a
newline. -/
theorem takeWhile_append_of_break (l z : Str) (h : '\n' ∈ l) :
    (l ++ z).takeWhile (fun ch => ch != '\n') =
      l.takeWhile (fun ch => ch != '\n') := by
  induction l with
  | nil => cases h
  | cons a t ih =>
    by_cases ha : a = '\n'
    · subst ha
      simp [List.takeWhile_cons]
    · have ht : '\n' ∈ t := by
        rcases List.mem_cons.mp h with h1 | h1
        · exact absurd h1.symm ha
        · exact h1
      simp [List.takeWhile_cons, bne_iff_ne, ha, Ne.symm, ih ht]

/-- Taking up to the first newline of `l ++ ['\n']` recovers a
newline-free `l`. -/
theorem takeWhile_append_newline (l : Str) (h : '\n' ∉ l) :
    (l ++ ['\n']).takeWhile (fun ch => ch != '\n') = l := by
  induction l with
  | nil => simp [List.takeWhile_cons]
  | cons a t ih =>
    have ha : ¬ a = '\n' := fun hc => h (hc ▸ List.mem_cons_self a t)
    simp only [List.cons_append, List.takeWhile_cons]
    rw [if_pos (by simp [bne_iff_ne]; exact ha)]
    rw [ih (fun hc => h (List.mem_cons_of_mem a hc))]

/-- The pieces produced by `linesGo` contain no newline. -/
theorem linesGo_no_newline : ∀ (s cur : Str), (∀ c ∈ cur, c ≠ '\n') →
    ∀ p ∈ linesGo cur s, ∀ c ∈ p, c ≠ '\n' := by
  intro s
  induction s with
  | nil =>
    intro cur hcur p hp c hc
    simp only [linesGo, List.mem_singleton] at hp
    subst hp
    exact hcur c (List.mem_reverse.mp hc)
  | cons a rest ih =>
    intro cur hcur p hp c hc
    by_cases ha : a = '\n'
    · subst ha
      simp only [linesGo, if_pos rfl] at hp
      rcases List.mem_cons.mp hp with h1 | h1
      · subst h1
        revert hc hcur
        split
        · rename_i t
          intro hcur hc
          exact hcur c (List.mem_cons_of_mem _ (List.mem_reverse.mp hc))
        · intro hcur hc
          exact hcur c (List.mem_reverse.mp hc)
      · by_cases hr : rest = []
        · rw [if_pos hr] at h1
          cases h1
        · rw [if_neg hr] at h1
          exact ih [] (by simp) p h1 c hc
    · rw [show linesGo cur (a :: rest) = linesGo (a :: cur) rest from by
        simp [linesGo, ha]] at hp
      refine ih (a :: cur) ?_ p hp c hc
      intro d hd
      rcases List.mem_cons.mp hd with h1 | h1
      · subst h1; exact ha
      · exact hcur d h1

/-- Lines produced by `lines` contain no newline character. -/
theorem lines_no_newline (s : Str) : ∀ p ∈ lines s, ∀ c ∈ p, c ≠ '\n' := by
  cases s with
  | nil => intro p hp; simp [lines] at hp
  | cons a rest =>
    intro p hp
    exact linesGo_no_newline (a :: rest) [] (by simp) p hp

/-- Invariant preservation for `split_into_sections`: every section after
the first starts with a header line, and once a section exists the
accumulator starts with a header line (and spans at least one full
line). -/
theorem sisStep_inv (st : List Str × Str) (l : Str) (hl : '\n' ∉ l)
    (h1 : ∀ c ∈ st.1.drop 1,
      isSectionHeader (c.takeWhile (fun ch => ch != '\n')) = true)
    (h2 : st.1 = [] ∨
      (isSectionHeader (st.2.takeWhile (fun ch => ch != '\n')) = true ∧
        '\n' ∈ st.2)) :
    (∀ c ∈ (sisStep st l).1.drop 1,
      isSectionHeader (c.takeWhile (fun ch => ch != '\n')) = true) ∧
    ((sisStep st l).1 = [] ∨
      (isSectionHeader
          ((sisStep st l).2.takeWhile (fun ch => ch != '\n')) = true ∧
        '\n' ∈ (sisStep st l).2)) := by
  unfold sisStep
  by_cases hh : isSectionHeader l = true
  · rw [if_pos hh]
    dsimp only
    constructor
    · by_cases hw : wsOnly st.2 = true
      · rw [if_pos hw]; exact h1
      · rw [if_neg hw]
        cases hs : st.1 with
        | nil => simp
        | cons a r =>
          intro c hc
          rw [List.cons_append, List.drop_one, List.tail_cons] at hc
          rcases List.mem_append.mp hc with hcr | hcs
          · exact h1 c (by rw [hs]; simpa using hcr)
          · have : c = st.2 := by simpa using hcs
            subst this
            rcases h2 with hcontra | hok
            · rw [hs] at hcontra; cases hcontra
            · exact hok.1
    · right
      constructor
      · rw [takeWhile_append_newline l hl]; exact hh
      · simp
  · rw [if_neg hh]
    dsimp only
    refine ⟨h1, ?_⟩
    rcases h2 with hnil | hok
    · left; exact hnil
    · right
      constructor
      · rw [List.append_assoc, takeWhile_append_of_break st.2 _ hok.2]
        exact hok.1
      · exact List.mem_append.mpr (Or.inl (List.mem_append.mpr (Or.inl hok.2)))

/-- Fold form of `sisStep_inv`. -/
theorem foldl_sisStep_inv : ∀ (ls : List Str) (st : List Str × Str),
    (∀ l ∈ ls, '\n' ∉ l) →
    ((∀ c ∈ st.1.drop 1,
        isSectionHeader (c.takeWhile (fun ch => ch != '\n')) = true) ∧
      (st.1 = [] ∨
        (isSectionHeader (st.2.takeWhile (fun ch => ch != '\n')) = true ∧
          '\n' ∈ st.2))) →
    (∀ c ∈ (ls.foldl sisStep st).1.drop 1,
      isSectionHeader (c.takeWhile (fun ch => ch != '\n')) = true) ∧
    ((ls.foldl sisStep st).1 = [] ∨
      (isSectionHeader
          ((ls.foldl sisStep st).2.takeWhile (fun ch => ch != '\n')) = true ∧
        '\n' ∈ (ls.foldl sisStep st).2)) := by
  intro ls
  induction ls with
  | nil => intro st _ h; exact h
  | cons l ls ih =>
    intro st hl h
    rw [List.foldl_cons]
    exact ih (sisStep st l) (fun x hx => hl x (List.mem_cons_of_mem l hx))
      (sisStep_inv st l (hl l (List.mem_cons_self l ls)) h.1 h.2)

/-- Invariant preservation for `split_by_headings`: every section after
the first starts with a `'#'`-initial line. -/
theorem hbStep_inv (st : List Str × Str) (l : Str) (hl : '\n' ∉ l)
    (h1 : ∀ c ∈ st.1.drop 1,
      (c.takeWhile (fun ch => ch != '\n')).head? = some '#')
    (h2 : st.1 = [] ∨
      ((st.2.takeWhile (fun ch => ch != '\n')).head? = some '#' ∧
        '\n' ∈ st.2)) :
    (∀ c ∈ (hbStep st l).1.drop 1,
      (c.takeWhile (fun ch => ch != '\n')).head? = some '#') ∧
    ((hbStep st l).1 = [] ∨
      (((hbStep st l).2.takeWhile (fun ch => ch != '\n')).head? = some '#' ∧
        '\n' ∈ (hbStep st l).2)) := by
  unfold hbStep
  by_cases hh : l.head? = some '#'
  · rw [if_pos hh]
    by_cases hw : wsOnly st.2 = true
    · rw [if_pos hw]
      dsimp only
      refine ⟨h1, ?_⟩
      rcases h2 with hnil | hok
      · left; exact hnil
      · right
        constructor
        · rw [List.append_assoc, takeWhile_append_of_break st.2 _ hok.2]
          exact hok.1
        · exact List.mem_append.mpr (Or.inl (List.mem_append.mpr
            (Or.inl hok.2)))
    · rw [if_neg hw]
      dsimp only
      constructor
      · cases hs : st.1 with
        | nil => simp
        | cons a r =>
          intro c hc
          rw [List.cons_append, List.drop_one, List.tail_cons] at hc
          rcases List.mem_append.mp hc with hcr | hcs
          · exact h1 c (by rw [hs]; simpa using hcr)
          · have : c = st.2 := by simpa using hcs
            subst this
            rcases h2 with hcontra | hok
            · rw [hs] at hcontra; cases hcontra
            · exact hok.1
      · right
        constructor
        · rw [takeWhile_append_newline l hl]; exact hh
        · simp
  · rw [if_neg hh]
    dsimp only
    refine ⟨h1, ?_⟩
    rcases h2 with hnil | hok
    · left; exact hnil
    · right
      constructor
      · rw [List.append_assoc, takeWhile_append_of_break st.2 _ hok.2]
        exact hok.1
      · exact List.mem_append.mpr (Or.inl (List.mem_append.mpr
          (Or.inl hok.2)))

/-- Fold form of `hbStep_inv`. -/
theorem foldl_hbStep_inv : ∀ (ls : List Str) (st : List Str × Str),
    (∀ l ∈ ls, '\n' ∉ l) →
    ((∀ c ∈ st.1.drop 1,
        (c.takeWhile (fun ch => ch != '\n')).head? = some '#') ∧
      (st.1 = [] ∨
        ((st.2.takeWhile (fun ch => ch != '\n')).head? = some '#' ∧
          '\n' ∈ st.2))) →
    (∀ c ∈ (ls.foldl hbStep st).1.drop 1,
      (c.takeWhile (fun ch => ch != '\n')).head? = some '#') ∧
    ((ls.foldl hbStep st).1 = [] ∨
      (((ls.foldl hbStep st).2.takeWhile
          (fun ch => ch != '\n')).head? = some '#' ∧
        '\n' ∈ (ls.foldl hbStep st).2)) := by
  intro ls
  induction ls with
  | nil => intro st _ h; exact h
  | cons l ls ih =>
    intro st hl h
    rw [List.foldl_cons]
    exact ih (hbStep st l) (fun x hx => hl x (List.mem_cons_of_mem l hx))
      (hbStep_inv st l (hl l (List.mem_cons_self l ls)) h.1 h.2)

/-- C9 amended: in `split_into_sections` a new chunk begins exactly at
lines matching the regex `^#\s|^##\s` (one or two `'#'` followed by
whitespace), while in `split_by_headings` it begins at every line whose
first character is `'#'`; in both, every chunk after the first starts
with a line passing the respective heading test (lines before the first
heading form the leading chunk). -/
theorem c9_heading_amended (s : Str) :
    (∀ c ∈ (split_into_sections s).drop 1,
      isSectionHeader (c.takeWhile (fun ch => ch != '\n')) = true) ∧
    (∀ c ∈ (split_by_headings s).drop 1,
      (c.takeWhile (fun ch => ch != '\n')).head? = some '#') := by
  have hnl : ∀ l ∈ lines s, '\n' ∉ l := by
    intro l hlm hc
    exact lines_no_newline s l hlm '\n' hc rfl
  constructor
  · simp only [split_into_sections]
    have hinv := foldl_sisStep_inv (lines s) ([], []) hnl
      ⟨by simp, Or.inl rfl⟩
    set st := (lines s).foldl sisStep ([], []) with hst
    by_cases hw : wsOnly st.2 = true
    · rw [if_pos hw]
      by_cases hnil : st.1 = []
      · rw [if_pos hnil]; simp
      · rw [if_neg hnil]; exact hinv.1
    · rw [if_neg hw]
      have hne : st.1 ++ [st.2] ≠ [] := by simp
      rw [if_neg hne]
      cases hs1 : st.1 with
      | nil => simp
      | cons a r =>
        intro c hc
        rw [List.cons_append, List.drop_one, List.tail_cons] at hc
        rcases List.mem_append.mp hc with hcr | hcs
        · exact hinv.1 c (by rw [hs1]; simpa using hcr)
        · have : c = st.2 := by simpa using hcs
          subst this
          rcases hinv.2 with hn | hok
          · rw [hs1] at hn; cases hn
          · exact hok.1
  · simp only [split_by_headings]
    have hinv := foldl_hbStep_inv (lines s) ([], []) hnl
      ⟨by simp, Or.inl rfl⟩
    set st := (lines s).foldl hbStep ([], []) with hst
    by_cases hw : wsOnly st.2 = true
    · rw [if_pos hw]
      by_cases hnil : st.1 = []
      · rw [if_pos hnil]; simp
      · rw [if_neg hnil]; exact hinv.1
    · rw [if_neg hw]
      have hne : st.1 ++ [st.2] ≠ [] := by simp
      rw [if_neg hne]
      cases hs1 : st.1 with
      | nil => simp
      | cons a r =>
        intro c hc
        rw [List.cons_append, List.drop_one, List.tail_cons] at hc
        rcases List.mem_append.mp hc with hcr | hcs
        · exact hinv.1 c (by rw [hs1]; simpa using hcr)
        · have : c = st.2 := by simpa using hcs
          subst this
          rcases hinv.2 with hn | hok
          · rw [hs1] at hn; cases hn
          · exact hok.1

/-- Witness for the amended C9: the document `"x\n# a\n# b"` has both
non-leading chunks starting with their heading lines. -/
theorem c9_heading_amended_witness :
    isSectionHeader (("# a\n".toList).takeWhile (fun ch => ch != '\n'))
      = true ∧
    (("# b\n".toList).takeWhile (fun ch => ch != '\n')).head? = some '#' :=
  ⟨(c9_heading_amended ("x\n# a\n# b".toList)).1 ("# a\n".toList)
      (by decide),
   (c9_heading_amended ("x\n# a\n# b".toList)).2 ("# b\n".toList)
      (by decide)⟩
